import Mathlib

/-!
Verification of the client-side resilience layer of the fhevm-sdk repository:
transaction queue, encryption cache, operation batcher, retry/backoff and
circuit breaker.  Every definition is a shallow embedding of the TypeScript
source; asynchronous fallible operations are modelled as outcome streams
(`Nat → Except String T`, attempt index to result or error message), the
event-loop interleaving as explicit event lists, and `Date.now()` readings as
explicit `Nat` arguments.  Error objects are identified with their message
strings.
-/

namespace FhevmSdk

/-! ### Simple retry, `retry(fn, maxRetries, baseDelay)`
(packages/core/src/utils, lines 333-356 of the utils module).

The loop runs `attempt = 0 .. maxRetries`, invoking `fn` once per iteration
and sleeping `baseDelay * 2^attempt` between failed attempts (the sleeps do
not affect the returned value and are not tracked here).  We return the final
outcome together with the number of invocations of `fn` actually made.  The
recursion is driven by the fuel `remaining = maxRetries + 1 - attempt`, which
is positive exactly while the source loop condition `attempt <= maxRetries`
holds. -/

/-- One asynchronous fallible operation, as the stream of outcomes of its
successive invocations: invocation `n` either resolves (`Except.ok`) or
rejects with an error message (`Except.error`). -/
def OpStream (T : Type) : Type := Nat → Except String T

/-- Loop of the 3-argument `retry`: `remaining` is the fuel (iterations left),
`attempt` the 0-based loop counter, `calls` the invocations made so far and
`lastError` the stored last error.  Returns the outcome and the total number
of invocations of `fn`. -/
def retryRunAux {T : Type} (fn : OpStream T) (maxRetries : Nat) :
    Nat → Nat → Nat → Option String → Except String T × Nat
  | 0, _, calls, lastError =>
      (Except.error ("Failed after " ++ toString maxRetries ++ " retries: " ++
        lastError.getD "Unknown error"), calls)
  | remaining + 1, attempt, calls, _ =>
      match fn attempt with
      | Except.ok v => (Except.ok v, calls + 1)
      | Except.error e => retryRunAux fn maxRetries remaining (attempt + 1) (calls + 1) (some e)

/-- Source `retry(fn, maxRetries, baseDelay)` together with the number of invocations
of `fn` it makes (the source returns only the value / throws only the error;
the invocation count is instrumentation used to state claims about the number
of attempts actually made). -/
def retryRun {T : Type} (fn : OpStream T) (maxRetries : Nat) : Except String T × Nat :=
  retryRunAux fn maxRetries (maxRetries + 1) 0 0 none

/-- The value/error returned by the simple `retry`. -/
def retrySimple {T : Type} (fn : OpStream T) (maxRetries : Nat) : Except String T :=
  (retryRun fn maxRetries).1

/-! ### Transaction queue results
(packages/core/src/advanced/TransactionQueue.ts). -/

/-- Source `TransactionRequest` (lines 12-40): caller-facing shape with optional
fields; the operation itself is passed separately as an `OpStream`. -/
structure TransactionRequest where
  id : String
  priority : Option Int
  maxRetries : Option Nat
  retryDelay : Option Nat
deriving DecidableEq, Repr

/-- Source `TransactionResult` (lines 45-75). -/
structure TransactionResult (T : Type) where
  id : String
  success : Bool
  data : Option T
  error : Option String
  attempts : Nat
  executionTime : Nat
deriving DecidableEq, Repr

/-- Source `executeTransaction` (lines 310-342): runs the request's operation through
the simple `retry` with the request's own `maxRetries` (default 3) and
`retryDelay` (default 1000).  On success the source hardcodes `attempts = 1`
(line 321, comment "Successful on first or retry"); on exhausted retries it
reports `attempts = maxRetries + 1`.  Wall-clock duration `Date.now() -
startTime` is passed in as `elapsed`.  The `completed`/`failed` counters it
bumps are queue bookkeeping not needed by the claims. -/
def executeTransaction {T : Type} (request : TransactionRequest) (fn : OpStream T)
    (elapsed : Nat) : TransactionResult T :=
  match retrySimple fn (request.maxRetries.getD 3) with
  | Except.ok r =>
      { id := request.id, success := true, data := some r, error := none,
        attempts := 1, executionTime := elapsed }
  | Except.error e =>
      { id := request.id, success := false, data := none, error := some e,
        attempts := request.maxRetries.getD 3 + 1, executionTime := elapsed }

/-- The result with which `waitForTransaction(id)` (lines 347-365) resolves
once the poller observes the id gone from the queue and `processing === 0`: a
constant `{ id, success: true, attempts: 1, executionTime: 0 }`, independent
of the item's actual outcome (the source comments "In real implementation,
store results"). -/
def waitForTransactionResult (T : Type) (id : String) : TransactionResult T :=
  { id := id, success := true, data := none, error := none,
    attempts := 1, executionTime := 0 }

/-- The result with which the promise returned by `enqueue` (line 186:
`return this.waitForTransaction(request.id)`) eventually resolves. -/
def enqueueResult (T : Type) (request : TransactionRequest) : TransactionResult T :=
  waitForTransactionResult T request.id

/-- An operation that rejects on every invocation. -/
def alwaysFail : OpStream String := fun _ => Except.error "boom"

/-- An operation that rejects on its first two invocations and then resolves. -/
def failTwice : OpStream String := fun n =>
  if n < 2 then Except.error ("e" ++ toString n) else Except.ok "v"

/-- Request used as the failing input of claim C1. -/
def reqTx1 : TransactionRequest :=
  { id := "tx1", priority := none, maxRetries := some 3, retryDelay := none }

/-- Request used as the failing input of claim C2. -/
def reqTx2 : TransactionRequest :=
  { id := "tx2", priority := none, maxRetries := some 2, retryDelay := none }

/-- C1: the claim says the promise returned by `enqueue` resolves with the
terminal `WorkResult` of the item — actual success flag, value, last error,
attempts made and execution time.  Evaluating the code at an item whose
operation always fails (`maxRetries = 3`): the terminal result produced by
`executeTransaction` is `success = false` with `attempts = 4` and the wrapped
last error, but the promise returned by `enqueue` resolves with the fabricated
`{ success := true, data := none, attempts := 1, executionTime := 0 }`.  The
code contradicts its own contract (`@returns Promise resolving to transaction
result`) and admits it ("In real implementation, store results"). -/
theorem c1_enqueue_resolves_fabricated_result :
    (enqueueResult String reqTx1).success = true ∧
    (enqueueResult String reqTx1).attempts = 1 ∧
    (enqueueResult String reqTx1).executionTime = 0 ∧
    (enqueueResult String reqTx1).data = none ∧
    (executeTransaction reqTx1 alwaysFail 5).success = false ∧
    (executeTransaction reqTx1 alwaysFail 5).attempts = 4 ∧
    (executeTransaction reqTx1 alwaysFail 5).error =
      some "Failed after 3 retries: boom" := by
  decide

/-- C2: the claim says an operation failing exactly twice and then succeeding,
run with `maxRetries = 2`, yields `success = true` and `attempts = 3`, the
number of invocations actually made.  Evaluating the code at that input: the
operation is indeed invoked 3 times and the item succeeds, but the reported
`attempts` is the hardcoded `1` (TransactionQueue.ts line 321), contradicting
the field's own documentation "Number of attempts made". -/
theorem c2_attempts_hardcoded_to_one :
    (executeTransaction reqTx2 failTwice 0).success = true ∧
    (executeTransaction reqTx2 failTwice 0).attempts = 1 ∧
    (retryRun failTwice 2).2 = 3 ∧
    (1 : Nat) ≠ 3 := by
  decide

/-! ### Circuit breaker
(utils/retry module, class `CircuitBreaker`, lines 582-657).

Each `execute` call is modelled as one atomic step taking the current
`Date.now()` reading and the outcome the wrapped function would produce if
invoked; the step returns the new breaker, the call's own outcome, and
whether the wrapped function was actually invoked. -/

/-- The three circuit-breaker states; `opened` renders the source's `'open'`
(a Lean keyword). -/
inductive CBState where
  | closed
  | opened
  | halfOpen
deriving DecidableEq, Repr

/-- Constructor configuration of `CircuitBreaker`; `monitoringPeriod` is
present in the source config but never read. -/
structure CBConfig where
  failureThreshold : Nat
  resetTimeout : Nat
  monitoringPeriod : Nat
deriving DecidableEq, Repr

/-- Mutable fields of `CircuitBreaker` (lines 583-585). -/
structure CircuitBreaker where
  failureCount : Nat
  lastFailureTime : Nat
  state : CBState
deriving DecidableEq, Repr

/-- A freshly constructed breaker: `failureCount = 0`, `lastFailureTime = 0`,
state `closed`. -/
def CircuitBreaker.init : CircuitBreaker :=
  { failureCount := 0, lastFailureTime := 0, state := CBState.closed }

/-- Source `recordFailure` (lines 621-628): increment the count, stamp the failure
time, and trip to `open` when the count reaches `failureThreshold`. -/
def CircuitBreaker.recordFailure (cfg : CBConfig) (b : CircuitBreaker) (now : Nat) :
    CircuitBreaker :=
  let fc := b.failureCount + 1
  { failureCount := fc, lastFailureTime := now,
    state := if cfg.failureThreshold ≤ fc then CBState.opened else b.state }

/-- Source `reset` (lines 630-634). -/
def CircuitBreaker.resetCB (_b : CircuitBreaker) : CircuitBreaker :=
  { failureCount := 0, lastFailureTime := 0, state := CBState.closed }

/-- Source `execute` (lines 598-619): in `open`, either lazily transition to
`half-open` when strictly more than `resetTimeout` has elapsed since
`lastFailureTime`, or fail fast with "Circuit breaker is open" without
invoking the wrapped function; otherwise invoke it, resetting on a
`half-open` success and recording any failure. -/
def CircuitBreaker.execute {T : Type} (cfg : CBConfig) (b : CircuitBreaker) (now : Nat)
    (fn : Except String T) : CircuitBreaker × Except String T × Bool :=
  if b.state = CBState.opened ∧ ¬ (now - b.lastFailureTime > cfg.resetTimeout) then
    (b, Except.error "Circuit breaker is open", false)
  else
    let b1 := if b.state = CBState.opened then { b with state := CBState.halfOpen } else b
    match fn with
    | Except.ok v =>
        let b2 := if b1.state = CBState.halfOpen then b1.resetCB else b1
        (b2, Except.ok v, true)
    | Except.error e => (CircuitBreaker.recordFailure cfg b1 now, Except.error e, true)

/-- Fold a sequence of calls (each a `Date.now()` reading paired with the
wrapped operation's would-be outcome) through the breaker, keeping the final
breaker state. -/
def runBreaker {T : Type} (cfg : CBConfig) :
    CircuitBreaker → List (Nat × Except String T) → CircuitBreaker
  | b, [] => b
  | b, ev :: rest => runBreaker cfg (CircuitBreaker.execute cfg b ev.1 ev.2).1 rest

/-- Number of failing calls in a call sequence. -/
def errCount {T : Type} (evs : List (Nat × Except String T)) : Nat :=
  (evs.filter (fun ev => match ev.2 with | Except.ok _ => false | Except.error _ => true)).length

lemma errCount_cons_ok {T : Type} (now : Nat) (v : T) (rest : List (Nat × Except String T)) :
    errCount ((now, Except.ok v) :: rest) = errCount rest := rfl

lemma errCount_cons_err {T : Type} (now : Nat) (e : String)
    (rest : List (Nat × Except String T)) :
    errCount ((now, Except.error e) :: rest) = errCount rest + 1 := rfl

/-- A call whose wrapped operation succeeds, made while the breaker is
`closed`, leaves the breaker completely unchanged — in particular it does not
reset `failureCount`. -/
lemma execute_closed_ok {T : Type} (cfg : CBConfig) (b : CircuitBreaker) (now : Nat) (v : T)
    (h : b.state = CBState.closed) :
    CircuitBreaker.execute cfg b now (Except.ok v) = (b, Except.ok v, true) := by
  simp [CircuitBreaker.execute, h]

/-- A call whose wrapped operation fails, made while the breaker is `closed`,
records the failure: count up by one, failure time stamped, state tripped to
`opened` exactly when the count reaches the threshold. -/
lemma execute_closed_err {T : Type} (cfg : CBConfig) (b : CircuitBreaker) (now : Nat)
    (e : String) (h : b.state = CBState.closed) :
    (CircuitBreaker.execute (T := T) cfg b now (Except.error e)).1
      = { failureCount := b.failureCount + 1, lastFailureTime := now,
          state := if cfg.failureThreshold ≤ b.failureCount + 1 then CBState.opened
                   else CBState.closed } := by
  simp [CircuitBreaker.execute, CircuitBreaker.recordFailure, h]

/-- While fewer failures than the threshold have been recorded, the breaker
stays `closed` and its `failureCount` is exactly the number of recorded
failures, regardless of how successes are interleaved. -/
lemma runBreaker_closed {T : Type} (cfg : CBConfig) :
    ∀ (evs : List (Nat × Except String T)) (b : CircuitBreaker),
      b.state = CBState.closed →
      b.failureCount + errCount evs < cfg.failureThreshold →
      (runBreaker cfg b evs).state = CBState.closed ∧
      (runBreaker cfg b evs).failureCount = b.failureCount + errCount evs
  | [], b, hst, _ => by
      constructor
      · exact hst
      · simp [runBreaker, errCount]
  | (now, Except.ok v) :: rest, b, hst, hlt => by
      rw [errCount_cons_ok] at hlt ⊢
      have hstep : runBreaker cfg b ((now, Except.ok v) :: rest) = runBreaker cfg b rest := by
        simp [runBreaker, execute_closed_ok cfg b now v hst]
      rw [hstep]
      exact runBreaker_closed cfg rest b hst hlt
  | (now, Except.error e) :: rest, b, hst, hlt => by
      rw [errCount_cons_err] at hlt ⊢
      have hfc : ¬ (cfg.failureThreshold ≤ b.failureCount + 1) := by omega
      have hstep : runBreaker cfg b ((now, Except.error e) :: rest)
          = runBreaker cfg (⟨b.failureCount + 1, now, CBState.closed⟩ : CircuitBreaker) rest := by
        simp [runBreaker, execute_closed_err cfg b now e hst, hfc]
      rw [hstep]
      have ih := runBreaker_closed cfg rest
        (⟨b.failureCount + 1, now, CBState.closed⟩ : CircuitBreaker)
        rfl (by simpa using (by omega : b.failureCount + 1 + errCount rest < cfg.failureThreshold))
      refine ⟨ih.1, ?_⟩
      rw [ih.2]
      show b.failureCount + 1 + errCount rest = b.failureCount + (errCount rest + 1)
      omega

/-- Splitting a call sequence splits the fold. -/
lemma runBreaker_append {T : Type} (cfg : CBConfig) :
    ∀ (l1 l2 : List (Nat × Except String T)) (b : CircuitBreaker),
      runBreaker cfg b (l1 ++ l2) = runBreaker cfg (runBreaker cfg b l1) l2
  | [], _, _ => by simp [runBreaker]
  | ev :: rest, l2, b => by
      simp only [List.cons_append, runBreaker]
      exact runBreaker_append cfg rest l2 _

/-- C3: the circuit breaker is the closed/open/half-open state machine of the
spec, with exactly the four transitions.  With `failureThreshold = 3` and
arbitrary `resetTimeout = R`: after one and two failures the breaker is
still `closed` with counts 1 and 2 (closed→closed below the threshold); the
third failure trips it to `opened` with count 3 and failure time `t3`
(closed→open at the threshold); every call at a time `t` with `t - t3 ≤ R`
fails fast with "Circuit breaker is open", does not invoke the wrapped
function (`false` flag) and leaves the state unchanged; a call at a time
`t'` with `t' - t3 > R` lazily enters `half-open` and invokes the wrapped
function (probe, `true` flag) exactly once — if the probe succeeds the
breaker ends `closed` with `failureCount = 0` (half-open→closed), and if
the probe fails it ends `opened` again with the count incremented and
`lastFailureTime` refreshed to `t'` (half-open→open). -/
theorem c3_circuit_breaker_trip_and_recovery (R M t1 t2 t3 t t' v : Nat)
    (e1 e2 e3 e4 : String) (fn : Except String Nat)
    (hwait : t - t3 ≤ R) (hrecover : t' - t3 > R) :
    runBreaker (T := Nat) ⟨3, R, M⟩ CircuitBreaker.init [(t1, Except.error e1)]
      = ⟨1, t1, CBState.closed⟩ ∧
    runBreaker (T := Nat) ⟨3, R, M⟩ CircuitBreaker.init
        [(t1, Except.error e1), (t2, Except.error e2)]
      = ⟨2, t2, CBState.closed⟩ ∧
    runBreaker (T := Nat) ⟨3, R, M⟩ CircuitBreaker.init
        [(t1, Except.error e1), (t2, Except.error e2), (t3, Except.error e3)]
      = ⟨3, t3, CBState.opened⟩ ∧
    CircuitBreaker.execute ⟨3, R, M⟩ ⟨3, t3, CBState.opened⟩ t fn
      = (⟨3, t3, CBState.opened⟩, Except.error "Circuit breaker is open", false) ∧
    CircuitBreaker.execute ⟨3, R, M⟩ ⟨3, t3, CBState.opened⟩ t' (Except.ok v)
      = (⟨0, 0, CBState.closed⟩, Except.ok v, true) ∧
    CircuitBreaker.execute ⟨3, R, M⟩ ⟨3, t3, CBState.opened⟩ t'
        (Except.error e4 : Except String Nat)
      = (⟨4, t', CBState.opened⟩, Except.error e4, true) := by
  have hw : ¬ (t - t3 > R) := by omega
  refine ⟨rfl, rfl, rfl, ?_, ?_, ?_⟩
  · simp [CircuitBreaker.execute, hw]
  · simp [CircuitBreaker.execute, CircuitBreaker.resetCB, hrecover]
  · simp [CircuitBreaker.execute, CircuitBreaker.recordFailure, hrecover]

/-- Witness for C3 at concrete inputs: threshold 3, `resetTimeout` 10,
failures at times 1, 2, 3, blocked call at time 8, probe at time 20 —
succeeding (back to closed, count 0) and failing (back to open, count 4,
failure time 20). -/
theorem c3_circuit_breaker_witness :
    CircuitBreaker.execute ⟨3, 10, 0⟩ ⟨3, 3, CBState.opened⟩ 20 (Except.ok 7)
      = (⟨0, 0, CBState.closed⟩, Except.ok 7, true) ∧
    CircuitBreaker.execute ⟨3, 10, 0⟩ ⟨3, 3, CBState.opened⟩ 20
        (Except.error "probe failed" : Except String Nat)
      = (⟨4, 20, CBState.opened⟩, Except.error "probe failed", true) :=
  ⟨(c3_circuit_breaker_trip_and_recovery 10 0 1 2 3 8 20 7 "a" "b" "c" "probe failed"
      (Except.error "x") (by decide) (by decide)).2.2.2.2.1,
   (c3_circuit_breaker_trip_and_recovery 10 0 1 2 3 8 20 7 "a" "b" "c" "probe failed"
      (Except.error "x") (by decide) (by decide)).2.2.2.2.2⟩

/-- C9: a success executed while the breaker is `closed` leaves it unchanged
(in particular `failureCount` is not reset), so `failureCount` accumulates
every recorded failure since the last reset, and `failureThreshold` failures
that are interleaved with closed-state successes still trip the breaker to
`opened`. -/
theorem c9_nonconsecutive_failures_trip (cfg : CBConfig)
    (evs : List (Nat × Except String Nat))
    (hcnt : errCount evs + 1 = cfg.failureThreshold) (t : Nat) (e : String) :
    (∀ (b : CircuitBreaker) (now v : Nat), b.state = CBState.closed →
        CircuitBreaker.execute (T := Nat) cfg b now (Except.ok v) = (b, Except.ok v, true)) ∧
    (runBreaker cfg CircuitBreaker.init (evs ++ [(t, Except.error e)])).state
      = CBState.opened ∧
    (runBreaker cfg CircuitBreaker.init (evs ++ [(t, Except.error e)])).failureCount
      = cfg.failureThreshold := by
  refine ⟨fun b now v h => execute_closed_ok cfg b now v h, ?_⟩
  have hrun := runBreaker_closed (T := Nat) cfg evs CircuitBreaker.init rfl
    (by simp [CircuitBreaker.init]; omega)
  rw [runBreaker_append]
  set s := runBreaker cfg CircuitBreaker.init evs with hs
  have hfc : s.failureCount = errCount evs := by
    have := hrun.2
    simpa [CircuitBreaker.init] using this
  have hth : cfg.failureThreshold ≤ s.failureCount + 1 := by omega
  have hlast : runBreaker (T := Nat) cfg s [(t, Except.error e)]
      = (⟨s.failureCount + 1, t, CBState.opened⟩ : CircuitBreaker) := by
    simp [runBreaker, execute_closed_err cfg s t e hrun.1, hth]
  rw [hlast]
  refine ⟨rfl, ?_⟩
  show s.failureCount + 1 = cfg.failureThreshold
  omega

/-- Witness for C9: threshold 3, failures at times 0 and 2 separated by
closed-state successes, final failure at time 4 trips the breaker. -/
theorem c9_nonconsecutive_failures_witness :
    (runBreaker ⟨3, 5, 0⟩ CircuitBreaker.init
        ([(0, Except.error "a"), (1, Except.ok 1), (2, Except.error "b"), (3, Except.ok 2)]
          ++ [(4, Except.error "c")])).state = CBState.opened :=
  (c9_nonconsecutive_failures_trip ⟨3, 5, 0⟩
    [(0, Except.error "a"), (1, Except.ok 1), (2, Except.error "b"), (3, Except.ok 2)]
    (by decide) 4 "c").2.1

/-! ### Config-based retry with backoff
(utils/retry module, lines 367-552).

Wall-clock readings (`Date.now()`), used only for `RetryResult.totalTime`,
are modelled by a clock `time : Nat → Nat` sampled at the completion of each
attempt (`time 0` is `startTime`); `Math.random()` samples used by the jitter
are an oracle `rand : Nat → ℚ` indexed by attempt.  Alongside the source's
return value we collect the list of backoff delays actually awaited (line
545); the optional `onRetry` observer receives exactly the (error, attempt,
delay) of each collected sleep and is not modelled separately. -/

/-- Source `DEFAULT_RETRYABLE_ERRORS` (lines 432-440). -/
def DEFAULT_RETRYABLE_ERRORS : List String :=
  ["ETIMEDOUT", "ECONNRESET", "ECONNREFUSED", "ENOTFOUND", "ENETUNREACH",
   "NetworkError", "FetchError"]

/-- Substring test over character lists (JavaScript `String.includes`). -/
def strIncludesAux : List Char → List Char → Bool
  | [], sub => sub.isEmpty
  | c :: rest, sub => sub.isPrefixOf (c :: rest) || strIncludesAux rest sub

/-- JavaScript `haystack.includes(needle)`. -/
def strIncludes (s sub : String) : Bool := strIncludesAux s.data sub.data

/-- Source `isRetryableError` (lines 445-453).  Errors are modelled by their message;
the source additionally tests `error.name`, which for the plain `Error`
objects this layer produces is the constant "Error" and matches no entry of
the retryable list. -/
def isRetryableError (msg : String) : Bool :=
  DEFAULT_RETRYABLE_ERRORS.any fun retryable => strIncludes msg.toLower retryable.toLower

/-- Source `RetryConfig` (lines 367-402) with its optional fields; the `onRetry`
observer is not part of the model (see section comment). -/
structure RetryConfig where
  maxAttempts : Option Nat
  initialDelay : Option ℚ
  maxDelay : Option ℚ
  backoffMultiplier : Option ℚ
  jitter : Option Bool
  shouldRetry : Option (String → Bool)

/-- Source `Required<RetryConfig>` after the `??` defaulting of lines 508-516. -/
structure RetryConfigR where
  maxAttempts : Nat
  initialDelay : ℚ
  maxDelay : ℚ
  backoffMultiplier : ℚ
  jitter : Bool
  shouldRetry : String → Bool

/-- The defaulting of lines 508-516: 3 attempts, 1000ms initial delay,
30000ms cap, multiplier 2, jitter on, `isRetryableError` as the predicate. -/
def resolveRetryConfig (config : RetryConfig) : RetryConfigR :=
  { maxAttempts := config.maxAttempts.getD 3,
    initialDelay := config.initialDelay.getD 1000,
    maxDelay := config.maxDelay.getD 30000,
    backoffMultiplier := config.backoffMultiplier.getD 2,
    jitter := config.jitter.getD true,
    shouldRetry := config.shouldRetry.getD isRetryableError }

/-- Source `calculateDelay` (lines 458-474); `rand` is this call's `Math.random()`
sample. -/
def calculateDelay (attempt : Nat) (cfg : RetryConfigR) (rand : ℚ) : ℚ :=
  let exponentialDelay := min (cfg.initialDelay * cfg.backoffMultiplier ^ (attempt - 1))
    cfg.maxDelay
  if cfg.jitter then
    let jitterRange := exponentialDelay * (1 / 10)
    max 0 (exponentialDelay + (rand * jitterRange * 2 - jitterRange))
  else exponentialDelay

/-- Source `RetryResult` (lines 407-427). -/
structure RetryResult (T : Type) where
  result : T
  attempts : Nat
  totalTime : Nat
  success : Bool
deriving DecidableEq, Repr

/-- The `for attempt = 1 .. maxAttempts` loop of the config-based `retry`
(lines 521-552), driven by the fuel `remaining = maxAttempts + 1 - attempt`.
Returns the outcome (`RetryResult` on success, error message on throw)
together with the backoff delays awaited.  Branch order follows the source:
success returns; on failure, reaching `maxAttempts` breaks to the wrapped
"Operation failed after N attempts" error; a non-retryable error is rethrown
raw (line 539); otherwise the delay is computed, recorded and slept. -/
def retryLoop {T : Type} (fn : OpStream T) (cfg : RetryConfigR) (rand : Nat → ℚ)
    (time : Nat → Nat) :
    Nat → Nat → Option String → List ℚ → Except String (RetryResult T) × List ℚ
  | 0, _, lastError, sleeps =>
      (Except.error ("Operation failed after " ++ toString cfg.maxAttempts ++ " attempts: " ++
        lastError.getD "Unknown error"), sleeps)
  | remaining + 1, attempt, _, sleeps =>
      match fn attempt with
      | Except.ok v =>
          (Except.ok
            { result := v, attempts := attempt,
              totalTime := time attempt - time 0, success := true }, sleeps)
      | Except.error e =>
          if attempt = cfg.maxAttempts then
            (Except.error ("Operation failed after " ++ toString cfg.maxAttempts ++
              " attempts: " ++ e), sleeps)
          else if cfg.shouldRetry e then
            retryLoop fn cfg rand time remaining (attempt + 1) (some e)
              (sleeps ++ [calculateDelay attempt cfg (rand attempt)])
          else
            (Except.error e, sleeps)

/-- Source `retry(fn, config)` (lines 504-552): resolve the configuration and run
the attempt loop from attempt 1. -/
def retryConfigured {T : Type} (fn : OpStream T) (config : RetryConfig) (rand : Nat → ℚ)
    (time : Nat → Nat) : Except String (RetryResult T) × List ℚ :=
  let cfg := resolveRetryConfig config
  retryLoop fn cfg rand time cfg.maxAttempts 1 none []

/-- If attempt `a < maxAttempts` fails with a non-retryable error after a run
of retryable failures, the loop surfaces that error raw, with exactly one
recorded sleep per earlier retryable failure and none for attempt `a`. -/
lemma retryLoop_nonretryable {T : Type} (fn : OpStream T) (cfg : RetryConfigR)
    (rand : Nat → ℚ) (time : Nat → Nat) (a : Nat) (ea : String)
    (ha : a < cfg.maxAttempts) (hfa : fn a = Except.error ea)
    (hsr : cfg.shouldRetry ea = false) :
    ∀ (d attempt : Nat), attempt + d = a →
      (∀ i, attempt ≤ i → i < a → ∃ e, fn i = Except.error e ∧ cfg.shouldRetry e = true) →
      ∀ (sleeps : List ℚ) (lastError : Option String),
        ∃ extra : List ℚ,
          retryLoop fn cfg rand time (cfg.maxAttempts - attempt + 1) attempt lastError sleeps
            = (Except.error ea, sleeps ++ extra) ∧ extra.length = d
  | 0, attempt, hd, _, sleeps, lastError => by
      have hattempt : attempt = a := by omega
      subst hattempt
      have hne : ¬ (attempt = cfg.maxAttempts) := by omega
      refine ⟨[], ?_, rfl⟩
      simp [retryLoop, hfa, hne, hsr]
  | d + 1, attempt, hd, hall, sleeps, lastError => by
      have hlt : attempt < a := by omega
      obtain ⟨e, hfe, hre⟩ := hall attempt le_rfl hlt
      have hne : ¬ (attempt = cfg.maxAttempts) := by omega
      have hfuel : cfg.maxAttempts - attempt = cfg.maxAttempts - (attempt + 1) + 1 := by omega
      have hstep : retryLoop fn cfg rand time (cfg.maxAttempts - attempt + 1) attempt
            lastError sleeps
          = retryLoop fn cfg rand time (cfg.maxAttempts - (attempt + 1) + 1) (attempt + 1)
            (some e) (sleeps ++ [calculateDelay attempt cfg (rand attempt)]) := by
        rw [← hfuel]
        simp [retryLoop, hfe, hne, hre]
      obtain ⟨extra, heq, hlen⟩ := retryLoop_nonretryable fn cfg rand time a ea ha hfa hsr
        d (attempt + 1) (by omega)
        (fun i hi1 hi2 => hall i (by omega) hi2)
        (sleeps ++ [calculateDelay attempt cfg (rand attempt)]) (some e)
      refine ⟨[calculateDelay attempt cfg (rand attempt)] ++ extra, ?_, by simp [hlen]⟩
      rw [hstep, heq]
      simp

/-- C8 (amended): in the config-based retry, when `shouldRetry(error)` is
false for the error of an attempt before the last one, retry stops
immediately without sleeping — the recorded backoff delays are exactly the
`a - 1` sleeps of the earlier retryable attempts, none for the aborting
attempt — and the error surfaced to the caller is the raw underlying error,
not wrapped with context (only exhausting all attempts wraps the last error
with the attempt count). -/
theorem c8_nonretryable_aborts_raw {T : Type} (fn : OpStream T) (config : RetryConfig)
    (rand : Nat → ℚ) (time : Nat → Nat) (a : Nat) (ea : String)
    (h1 : 1 ≤ a) (ha : a < (resolveRetryConfig config).maxAttempts)
    (hall : ∀ i, 1 ≤ i → i < a →
      ∃ e, fn i = Except.error e ∧ (resolveRetryConfig config).shouldRetry e = true)
    (hfa : fn a = Except.error ea)
    (hsr : (resolveRetryConfig config).shouldRetry ea = false) :
    (retryConfigured fn config rand time).1 = Except.error ea ∧
    (retryConfigured fn config rand time).2.length = a - 1 := by
  have hfuel : (resolveRetryConfig config).maxAttempts
      = (resolveRetryConfig config).maxAttempts - 1 + 1 := by omega
  obtain ⟨extra, heq, hlen⟩ := retryLoop_nonretryable fn (resolveRetryConfig config) rand time
    a ea ha hfa hsr (a - 1) 1 (by omega) (fun i hi1 hi2 => hall i hi1 hi2) [] none
  have : retryConfigured fn config rand time = (Except.error ea, [] ++ extra) := by
    rw [retryConfigured]
    rw [hfuel]
    exact heq
  rw [this]
  simpa using hlen

/-- Operation used for the C8 witness and counterexample: attempt 1 fails
with the (deemed retryable) error "soft", attempt 2 with the non-retryable
"fatal". -/
def fnC8 : OpStream String := fun n =>
  if n = 1 then Except.error "soft"
  else if n = 2 then Except.error "fatal"
  else Except.ok "late"

/-- Config used for the C8 witness and counterexample: 3 attempts, no jitter,
only "soft" retryable. -/
def cfgC8 : RetryConfig :=
  { maxAttempts := some 3, initialDelay := none, maxDelay := none,
    backoffMultiplier := none, jitter := some false,
    shouldRetry := some (fun e => e == "soft") }

/-- Witness for C8 (amended) at the concrete inputs: the non-retryable
failure of attempt 2 of 3 surfaces the raw "fatal" after exactly one sleep
(the backoff of attempt 1). -/
theorem c8_nonretryable_witness :
    (retryConfigured fnC8 cfgC8 (fun _ => 0) (fun _ => 0)).1 = Except.error "fatal" ∧
    (retryConfigured fnC8 cfgC8 (fun _ => 0) (fun _ => 0)).2.length = 2 - 1 :=
  c8_nonretryable_aborts_raw fnC8 cfgC8 (fun _ => 0) (fun _ => 0) 2 "fatal"
    (by decide) (by decide)
    (fun i hi1 hi2 => by
      have : i = 1 := by omega
      subst this
      exact ⟨"soft", rfl, rfl⟩)
    rfl rfl

/-- C8, counterexample to the claim as stated: the claim says the error
surfaced on a non-retryable failure is wrapped with context (attempt count);
at the concrete input the surfaced error is the raw message of the failing
attempt, not the wrapped "Operation failed after N attempts: ..." form the
source uses when attempts are exhausted. -/
theorem c8_error_not_wrapped_counterexample :
    (retryConfigured fnC8 cfgC8 (fun _ => 0) (fun _ => 0)).1 = Except.error "fatal" ∧
    fnC8 2 = Except.error "fatal" ∧
    ("fatal" : String) ≠ "Operation failed after 3 attempts: fatal" := by
  exact ⟨rfl, rfl, by decide⟩

/-! ### Transaction queue scheduling
(packages/core/src/advanced/TransactionQueue.ts, `enqueue` lines 168-187,
`processQueue` lines 270-305, settlement callback lines 290-299).

The event-loop interleaving is modelled by an explicit event list: `enq r`
is a call to `enqueue(r)` (which runs `processQueue` synchronously up to the
dispatch of operations, as the source does on the single logical thread),
and `settle` is the settlement of one in-flight item (its `.then` callback:
decrement `processing`, re-run `processQueue` when items are pending).
Dispatches are recorded in `dispatchLog` as (dispatched item, items still
pending at that instant).  The rate-limit sleep (lines 277-283) only delays
dispatch in wall-clock time and does not change the dispatch order when no
other event interleaves; it is modelled for `rateLimit = 0`, the constructor
default and the setting of every claim about ordering. -/

/-- A `TransactionRequest` as passed to `enqueue`, optional fields still
unset. -/
structure QReqIn where
  id : String
  priority : Option Int
  maxRetries : Option Nat
  retryDelay : Option Nat
deriving DecidableEq, Repr

/-- A queued request after the defaulting of lines 170-175. -/
structure QReq where
  id : String
  priority : Int
  maxRetries : Nat
  retryDelay : Nat
deriving DecidableEq, Repr

/-- The `??` defaults of lines 170-175: priority 0, maxRetries 3,
retryDelay 1000. -/
def withDefaults (r : QReqIn) : QReq :=
  { id := r.id, priority := r.priority.getD 0, maxRetries := r.maxRetries.getD 3,
    retryDelay := r.retryDelay.getD 1000 }

/-- Stable insertion used to model line 178's
`queue.sort((a, b) => (b.priority ?? 0) - (a.priority ?? 0))`: the new
element goes after every element with priority greater than or equal to its
own. -/
def insertReq : List QReq → QReq → List QReq
  | [], r => [r]
  | x :: xs, r => if r.priority ≤ x.priority then x :: insertReq xs r else r :: x :: xs

/-- The sort of line 178.  JavaScript `Array.prototype.sort` is stable
(ES2019), so its output is the unique stable descending-by-priority
permutation, which this left fold of stable insertions computes. -/
def sortByPriority (l : List QReq) : List QReq := l.foldl insertReq []

/-- The queue-scheduling state: `queue`/`processing`/`isProcessingQueue` are
the source fields (lines 132-136); `dispatchLog` instruments the dispatch
events of `processQueue` (one entry per dispatched item, paired with the
items still pending at that instant). -/
structure QState where
  queue : List QReq
  processing : Nat
  isProcessingQueue : Bool
  dispatchLog : List (QReq × List QReq)
deriving DecidableEq, Repr

/-- A freshly constructed queue. -/
def initQ : QState :=
  { queue := [], processing := 0, isProcessingQueue := false, dispatchLog := [] }

/-- The `while` loop of `processQueue` (lines 273-300): while items are
pending and `processing < maxConcurrent`, shift the head, increment
`processing` and dispatch it (the operation starts executing immediately,
before the loop resumes). -/
def processLoop (mc : Nat) : List QReq → Nat → List (QReq × List QReq) →
    List QReq × Nat × List (QReq × List QReq)
  | [], processing, log => ([], processing, log)
  | q :: rest, processing, log =>
      if processing < mc then processLoop mc rest (processing + 1) (log ++ [(q, rest)])
      else (q :: rest, processing, log)

/-- Source `processQueue` (lines 270-305): set `isProcessingQueue`, run the dispatch
loop, and clear the flag only when nothing is pending and nothing is in
flight. -/
def processQueue (mc : Nat) (s : QState) : QState :=
  let out := processLoop mc s.queue s.processing s.dispatchLog
  if out.1 = [] ∧ out.2.1 = 0 then
    { queue := out.1, processing := out.2.1, isProcessingQueue := false,
      dispatchLog := out.2.2 }
  else
    { queue := out.1, processing := out.2.1, isProcessingQueue := true,
      dispatchLog := out.2.2 }

/-- Source `enqueue` (lines 168-187): push with defaults, re-sort the whole queue by
descending priority, and start the dispatch loop unless it is already
running. -/
def qEnqueue (mc : Nat) (s : QState) (r : QReqIn) : QState :=
  let s1 : QState := { s with queue := sortByPriority (s.queue ++ [withDefaults r]) }
  if s1.isProcessingQueue then s1 else processQueue mc s1

/-- The settlement callback of a dispatched item (lines 290-295): decrement
`processing` and re-run `processQueue` when items are pending. -/
def qSettle (mc : Nat) (s : QState) : QState :=
  let s1 : QState := { s with processing := s.processing - 1 }
  if s1.queue = [] then s1 else processQueue mc s1

/-- Observable scheduling events: an `enqueue` call, or the settlement of one
in-flight item. -/
inductive QEv where
  | enq (r : QReqIn)
  | settle
deriving DecidableEq, Repr

/-- One scheduling event. -/
def qStep (mc : Nat) (s : QState) : QEv → QState
  | QEv.enq r => qEnqueue mc s r
  | QEv.settle => qSettle mc s

/-- Run a sequence of scheduling events. -/
def runQueue (mc : Nat) : QState → List QEv → QState
  | s, [] => s
  | s, ev :: rest => runQueue mc (qStep mc s ev) rest

/-- The pending queue is sorted by descending priority. -/
def QSorted (l : List QReq) : Prop := l.Pairwise (fun a b => b.priority ≤ a.priority)

/-- Every logged dispatch took an item of maximal priority among the items
then pending. -/
def LogOK (log : List (QReq × List QReq)) : Prop :=
  ∀ p ∈ log, ∀ q ∈ p.2, q.priority ≤ p.1.priority

lemma insertReq_mem : ∀ (l : List QReq) (r x : QReq), x ∈ insertReq l r → x ∈ l ∨ x = r
  | [], r, x, h => by
      simp [insertReq] at h
      exact Or.inr h
  | y :: ys, r, x, h => by
      by_cases hc : r.priority ≤ y.priority
      · simp only [insertReq, if_pos hc, List.mem_cons] at h
        rcases h with h | h
        · exact Or.inl (by simp [h])
        · rcases insertReq_mem ys r x h with h' | h'
          · exact Or.inl (List.mem_cons_of_mem y h')
          · exact Or.inr h'
      · simp only [insertReq, if_neg hc, List.mem_cons] at h
        rcases h with h | h
        · exact Or.inr h
        · exact Or.inl (List.mem_cons.mpr h)

lemma insertReq_sorted : ∀ (l : List QReq) (r : QReq), QSorted l → QSorted (insertReq l r)
  | [], r, _ => by simp [insertReq, QSorted]
  | x :: xs, r, h => by
      rw [QSorted, List.pairwise_cons] at h
      obtain ⟨hx, hxs⟩ := h
      by_cases hc : r.priority ≤ x.priority
      · simp only [insertReq, if_pos hc]
        rw [QSorted, List.pairwise_cons]
        refine ⟨?_, insertReq_sorted xs r hxs⟩
        intro y hy
        rcases insertReq_mem xs r y hy with h' | h'
        · exact hx y h'
        · rw [h']
          exact hc
      · simp only [insertReq, if_neg hc]
        rw [QSorted, List.pairwise_cons]
        refine ⟨?_, by rw [List.pairwise_cons]; exact ⟨hx, hxs⟩⟩
        intro y hy
        rcases List.mem_cons.mp hy with h' | h'
        · rw [h']
          omega
        · have := hx y h'
          omega

lemma foldl_insertReq_sorted : ∀ (l acc : List QReq), QSorted acc →
    QSorted (l.foldl insertReq acc)
  | [], _, h => h
  | x :: xs, acc, h => foldl_insertReq_sorted xs (insertReq acc x) (insertReq_sorted acc x h)

lemma sortByPriority_sorted (l : List QReq) : QSorted (sortByPriority l) :=
  foldl_insertReq_sorted l [] (by simp [QSorted])

lemma processLoop_inv (mc : Nat) : ∀ (q : List QReq) (processing : Nat)
    (log : List (QReq × List QReq)), QSorted q → LogOK log →
    QSorted (processLoop mc q processing log).1 ∧ LogOK (processLoop mc q processing log).2.2
  | [], _, _, hq, hlog => ⟨hq, hlog⟩
  | x :: xs, processing, log, hq, hlog => by
      rw [QSorted, List.pairwise_cons] at hq
      obtain ⟨hx, hxs⟩ := hq
      by_cases hc : processing < mc
      · have hlog' : LogOK (log ++ [(x, xs)]) := by
          intro p hp q hqm
          rcases List.mem_append.mp hp with h | h
          · exact hlog p h q hqm
          · simp at h
            rw [h] at hqm ⊢
            exact hx q hqm
        have := processLoop_inv mc xs (processing + 1) (log ++ [(x, xs)]) hxs hlog'
        simpa [processLoop, hc] using this
      · refine ⟨?_, by simpa [processLoop, hc] using hlog⟩
        simp only [processLoop, if_neg hc]
        rw [QSorted, List.pairwise_cons]
        exact ⟨hx, hxs⟩

lemma processQueue_inv (mc : Nat) (s : QState)
    (h : QSorted s.queue ∧ LogOK s.dispatchLog) :
    QSorted (processQueue mc s).queue ∧ LogOK (processQueue mc s).dispatchLog := by
  have hpl := processLoop_inv mc s.queue s.processing s.dispatchLog h.1 h.2
  simp only [processQueue]
  split
  · exact hpl
  · exact hpl

lemma qStep_inv (mc : Nat) (s : QState) (ev : QEv)
    (h : QSorted s.queue ∧ LogOK s.dispatchLog) :
    QSorted (qStep mc s ev).queue ∧ LogOK (qStep mc s ev).dispatchLog := by
  cases ev with
  | enq r =>
      simp only [qStep, qEnqueue]
      split
      · exact ⟨sortByPriority_sorted _, h.2⟩
      · exact processQueue_inv mc _ ⟨sortByPriority_sorted _, h.2⟩
  | settle =>
      simp only [qStep, qSettle]
      split
      · exact h
      · exact processQueue_inv mc _ h

lemma runQueue_inv (mc : Nat) : ∀ (evs : List QEv) (s : QState),
    QSorted s.queue ∧ LogOK s.dispatchLog →
    QSorted (runQueue mc s evs).queue ∧ LogOK (runQueue mc s evs).dispatchLog
  | [], _, h => h
  | ev :: rest, s, h => runQueue_inv mc rest (qStep mc s ev) (qStep_inv mc s ev h)

/-- The [1, 10, 5] scenario of the claim: requests a, b, c with priorities
1, 10, 5 enqueued in sequence on an idle queue, then three settlements. -/
def scenarioC6 : List QEv :=
  [QEv.enq { id := "a", priority := some 1, maxRetries := none, retryDelay := none },
   QEv.enq { id := "b", priority := some 10, maxRetries := none, retryDelay := none },
   QEv.enq { id := "c", priority := some 5, maxRetries := none, retryDelay := none },
   QEv.settle, QEv.settle, QEv.settle]

/-- A tie scenario: x (priority 0) occupies the single slot, then d and e
with equal priority 5 are enqueued in that arrival order. -/
def tieScenarioC6 : List QEv :=
  [QEv.enq { id := "x", priority := some 0, maxRetries := none, retryDelay := none },
   QEv.enq { id := "d", priority := some 5, maxRetries := none, retryDelay := none },
   QEv.enq { id := "e", priority := some 5, maxRetries := none, retryDelay := none },
   QEv.settle, QEv.settle, QEv.settle]

/-- C6 (amended): whenever the queue dispatches an item, that item has
maximal priority among the items then pending, with ties broken by arrival
order (the pending list is kept stably sorted); however, an item enqueued
while the queue is idle is dispatched immediately by its own `enqueue` call,
so with `maxConcurrent = 1` and priorities [1, 10, 5] enqueued in sequence
the priority-1 item begins executing first, and the priority-10 item then
executes before the priority-5 item (dispatch order a, b, c); among equal
priorities arrival order is preserved (dispatch order x, d, e). -/
theorem c6_priority_dispatch_amended :
    (∀ (mc : Nat) (evs : List QEv) (p : QReq × List QReq) (q : QReq),
        p ∈ (runQueue mc initQ evs).dispatchLog → q ∈ p.2 →
        q.priority ≤ p.1.priority) ∧
    (runQueue 1 initQ scenarioC6).dispatchLog.map (fun en => en.1.id) = ["a", "b", "c"] ∧
    (runQueue 1 initQ tieScenarioC6).dispatchLog.map (fun en => en.1.id) = ["x", "d", "e"] := by
  refine ⟨?_, by decide, by decide⟩
  intro mc evs p q hp hq
  have hinv := runQueue_inv mc evs initQ ⟨by simp [initQ, QSorted], by intro p hp; simp [initQ] at hp⟩
  exact hinv.2 p hp q hq

/-- Witness for C6 (amended): in the [1, 10, 5] scenario the dispatch of b
(priority 10) happened while c (priority 5) was the pending item, and
indeed 5 ≤ 10. -/
theorem c6_priority_dispatch_witness :
    (⟨"c", 5, 3, 1000⟩ : QReq).priority ≤ (⟨"b", 10, 3, 1000⟩ : QReq).priority :=
  c6_priority_dispatch_amended.1 1 scenarioC6
    ((⟨"b", 10, 3, 1000⟩ : QReq), [(⟨"c", 5, 3, 1000⟩ : QReq)])
    (⟨"c", 5, 3, 1000⟩ : QReq) (by decide) (by decide)

/-- C6, counterexample to the claim as stated: with `maxConcurrent = 1` and
priorities [1, 10, 5] enqueued together, the claim says the priority-10 item
executes first; in the code the first `enqueue` call starts the dispatch
loop at once, so the priority-1 item "a" begins executing first, not the
priority-10 item "b". -/
theorem c6_priority_ten_not_first_counterexample :
    ((runQueue 1 initQ scenarioC6).dispatchLog.map (fun en => en.1.id)).head? = some "a" ∧
    ((runQueue 1 initQ scenarioC6).dispatchLog.map (fun en => en.1.id)).head? ≠ some "b" ∧
    (withDefaults { id := "a", priority := some 1, maxRetries := none, retryDelay := none }).priority = 1 ∧
    (withDefaults { id := "b", priority := some 10, maxRetries := none, retryDelay := none }).priority = 10 := by
  decide

/-! ### Encryption cache
(packages/core/src/advanced/EncryptionCache.ts).

The backing `Map<string, CacheEntry>` is modelled as an association list in
insertion order (JavaScript `Map` iterates in insertion order; `set` on an
existing key updates in place, keeping its position).  The cached value type
is a parameter `V`; `Date.now()` readings are explicit arguments of the
operations that consult the clock. -/

/-- Source `CacheEntry` (lines 12-27). -/
structure CEntry (V : Type) where
  value : V
  timestamp : Nat
  ttl : Option Nat
deriving DecidableEq, Repr

/-- JavaScript `Map.get`. -/
def mapFind {V : Type} : List (String × CEntry V) → String → Option (CEntry V)
  | [], _ => none
  | (k', e) :: rest, k => if k' = k then some e else mapFind rest k

/-- JavaScript `Map.set`: update in place when the key exists, else append. -/
def mapSet {V : Type} : List (String × CEntry V) → String → CEntry V →
    List (String × CEntry V)
  | [], k, e => [(k, e)]
  | (k', e') :: rest, k, e => if k' = k then (k, e) :: rest else (k', e') :: mapSet rest k e

/-- JavaScript `Map.delete` (keys are unique in a `Map`, so removing the
first occurrence is removal of the occurrence). -/
def mapDelete {V : Type} : List (String × CEntry V) → String → List (String × CEntry V)
  | [], _ => []
  | (k', e) :: rest, k => if k' = k then rest else (k', e) :: mapDelete rest k

/-- The scan of `evictOldest` (lines 306-320): fold over the entries keeping
the key with the strictly smallest timestamp seen so far (ties keep the
earlier entry, as the source compares with `<` against the running minimum,
initially `Infinity`). -/
def oldestAux {V : Type} : List (String × CEntry V) → Option (String × Nat) →
    Option (String × Nat)
  | [], acc => acc
  | (k, e) :: rest, acc =>
      match acc with
      | none => oldestAux rest (some (k, e.timestamp))
      | some (k0, t0) =>
          if e.timestamp < t0 then oldestAux rest (some (k, e.timestamp))
          else oldestAux rest (some (k0, t0))

/-- The key `evictOldest` selects: first entry with minimal timestamp. -/
def oldestKey {V : Type} (m : List (String × CEntry V)) : Option String :=
  (oldestAux m none).map Prod.fst

/-- Source `evictOldest` (lines 306-320): delete the first entry with the oldest
insertion timestamp, if any. -/
def evictOldest {V : Type} (m : List (String × CEntry V)) : List (String × CEntry V) :=
  match oldestKey m with
  | none => m
  | some k => mapDelete m k

/-- The cache's state: backing map plus the constructor options (lines
80-97; `maxSize` defaults to 1000, `defaultTTL` to absent) and the hit/miss
counters. -/
structure CacheState (V : Type) where
  cache : List (String × CEntry V)
  maxSize : Nat
  defaultTTL : Option Nat
  hits : Nat
  misses : Nat
deriving DecidableEq, Repr

/-- A freshly constructed `EncryptionCache` (lines 94-97). -/
def initCache (V : Type) (maxSize : Option Nat) (defaultTTL : Option Nat) : CacheState V :=
  { cache := [], maxSize := maxSize.getD 1000, defaultTTL := defaultTTL,
    hits := 0, misses := 0 }

/-- Source `set` (lines 111-122): evict the oldest entry whenever the map already
holds at least `maxSize` entries — even when the key is already present —
then store the entry with timestamp `now` and `ttl ?? defaultTTL`. -/
def cacheSet {V : Type} (s : CacheState V) (k : String) (v : V) (ttl : Option Nat)
    (now : Nat) : CacheState V :=
  let m := if s.maxSize ≤ s.cache.length then evictOldest s.cache else s.cache
  let entry : CEntry V :=
    { value := v, timestamp := now,
      ttl := match ttl with | some t => some t | none => s.defaultTTL }
  { s with cache := mapSet m k entry }

/-- Source `get` (lines 138-158): absent key counts a miss; an entry older than its
ttl is deleted and counts a miss; otherwise a hit returning the value. -/
def cacheGet {V : Type} (s : CacheState V) (k : String) (now : Nat) :
    CacheState V × Option V :=
  match mapFind s.cache k with
  | none => ({ s with misses := s.misses + 1 }, none)
  | some e =>
      match e.ttl with
      | some t =>
          if now - e.timestamp > t then
            ({ s with cache := mapDelete s.cache k, misses := s.misses + 1 }, none)
          else ({ s with hits := s.hits + 1 }, some e.value)
      | none => ({ s with hits := s.hits + 1 }, some e.value)

/-- Source `has` (lines 173-175): delegates to `get`, so it updates the counters. -/
def cacheHas {V : Type} (s : CacheState V) (k : String) (now : Nat) : CacheState V × Bool :=
  let out := cacheGet s k now
  (out.1, out.2.isSome)

/-- Source `delete` (lines 188-190). -/
def cacheDelete {V : Type} (s : CacheState V) (k : String) : CacheState V × Bool :=
  ({ s with cache := mapDelete s.cache k }, (mapFind s.cache k).isSome)

/-- Source `clear` (lines 200-204): drops the entries and resets both counters. -/
def cacheClear {V : Type} (s : CacheState V) : CacheState V :=
  { s with cache := [], hits := 0, misses := 0 }

/-- Source `invalidate` (lines 221-239): without a pattern, clear and return the
prior size; with one, remove and count the keys the compiled regex matches
(the regex test is modelled as the predicate it denotes). -/
def cacheInvalidate {V : Type} (s : CacheState V) (pattern : Option (String → Bool)) :
    CacheState V × Nat :=
  match pattern with
  | none => (cacheClear s, s.cache.length)
  | some p =>
      ({ s with cache := s.cache.filter (fun kv => ! p kv.1) },
        (s.cache.filter (fun kv => p kv.1)).length)

/-- Source `cleanup` (lines 286-301): remove every currently-expired entry, counting
the removals. -/
def cacheCleanup {V : Type} (s : CacheState V) (now : Nat) : CacheState V × Nat :=
  let expired := fun (kv : String × CEntry V) =>
    match kv.2.ttl with
    | some t => decide (now - kv.2.timestamp > t)
    | none => false
  ({ s with cache := s.cache.filter (fun kv => ! expired kv) },
    (s.cache.filter expired).length)

/-- Source `CacheStats` (lines 32-62); `hitRate` is a rational to state exact
arithmetic. -/
structure CacheStats where
  size : Nat
  maxSize : Nat
  hits : Nat
  misses : Nat
  hitRate : ℚ
  memoryUsage : Nat
deriving DecidableEq, Repr

/-- Source `getStats` (lines 253-273): `hitRate` is `(hits / totalRequests) * 100`
when any request was made, else 0; `memoryUsage` adds 100 bytes of overhead
plus the payload size (`bytes`) per entry. -/
def getStats {V : Type} (bytes : V → Nat) (s : CacheState V) : CacheStats :=
  let totalRequests := s.hits + s.misses
  { size := s.cache.length, maxSize := s.maxSize, hits := s.hits, misses := s.misses,
    hitRate := if 0 < totalRequests then ((s.hits : ℚ) / (totalRequests : ℚ)) * 100 else 0,
    memoryUsage := s.cache.foldl (fun acc kv => acc + 100 + bytes kv.2.value) 0 }

/-- The cache's public mutating/reading operations, with explicit `Date.now()`
arguments. -/
inductive COp (V : Type) where
  | set (k : String) (v : V) (ttl : Option Nat) (now : Nat)
  | get (k : String) (now : Nat)
  | has (k : String) (now : Nat)
  | del (k : String)
  | clear
  | invalidate (pattern : Option (String → Bool))
  | cleanup (now : Nat)

/-- Apply one operation, forgetting its return value. -/
def applyOp {V : Type} (s : CacheState V) : COp V → CacheState V
  | COp.set k v ttl now => cacheSet s k v ttl now
  | COp.get k now => (cacheGet s k now).1
  | COp.has k now => (cacheHas s k now).1
  | COp.del k => (cacheDelete s k).1
  | COp.clear => cacheClear s
  | COp.invalidate pattern => (cacheInvalidate s pattern).1
  | COp.cleanup now => (cacheCleanup s now).1

/-- Apply a sequence of operations. -/
def applyOps {V : Type} (s : CacheState V) : List (COp V) → CacheState V
  | [] => s
  | op :: rest => applyOps (applyOp s op) rest

/-- Operations that count as a request: `get` and `has`. -/
def isReqOp {V : Type} : COp V → Bool
  | COp.get _ _ => true
  | COp.has _ _ => true
  | _ => false

/-- Operations that reset the hit/miss counters: `clear` and the
pattern-less `invalidate` (which calls `clear`). -/
def isClearingOp {V : Type} : COp V → Bool
  | COp.clear => true
  | COp.invalidate none => true
  | _ => false

/-- Number of `get`/`has` calls in an operation sequence. -/
def reqCount {V : Type} (ops : List (COp V)) : Nat := (ops.filter isReqOp).length

lemma mapSet_length_le {V : Type} : ∀ (m : List (String × CEntry V)) (k : String)
    (e : CEntry V), (mapSet m k e).length ≤ m.length + 1
  | [], _, _ => by simp [mapSet]
  | (k', e') :: rest, k, e => by
      by_cases hc : k' = k
      · simp [mapSet, hc]
      · simp only [mapSet, if_neg hc, List.length_cons]
        have := mapSet_length_le rest k e
        omega

lemma mapSet_length_mem {V : Type} : ∀ (m : List (String × CEntry V)) (k : String)
    (e : CEntry V), k ∈ m.map Prod.fst → (mapSet m k e).length = m.length
  | [], k, _, h => by simp at h
  | (k', e') :: rest, k, e, h => by
      by_cases hc : k' = k
      · simp [mapSet, hc]
      · have hk : k ∈ rest.map Prod.fst := by
          simp only [List.map_cons, List.mem_cons] at h
          rcases h with h | h
          · exact absurd h.symm hc
          · exact h
        simp only [mapSet, if_neg hc, List.length_cons]
        rw [mapSet_length_mem rest k e hk]

lemma mapSet_keys_sub {V : Type} : ∀ (m : List (String × CEntry V)) (k : String)
    (e : CEntry V) (x : String), x ∈ (mapSet m k e).map Prod.fst →
    x ∈ m.map Prod.fst ∨ x = k
  | [], k, e, x, h => by
      simp [mapSet] at h
      exact Or.inr h
  | (k', e') :: rest, k, e, x, h => by
      by_cases hc : k' = k
      · simp only [mapSet, if_pos hc, List.map_cons, List.mem_cons] at h
        rcases h with h | h
        · exact Or.inr h
        · exact Or.inl (by simp only [List.map_cons, List.mem_cons]; exact Or.inr h)
      · simp only [mapSet, if_neg hc, List.map_cons, List.mem_cons] at h
        rcases h with h | h
        · exact Or.inl (by simp only [List.map_cons, List.mem_cons]; exact Or.inl h)
        · rcases mapSet_keys_sub rest k e x h with h' | h'
          · exact Or.inl (by simp only [List.map_cons, List.mem_cons]; exact Or.inr h')
          · exact Or.inr h'

lemma mapDelete_length_le {V : Type} : ∀ (m : List (String × CEntry V)) (k : String),
    (mapDelete m k).length ≤ m.length
  | [], _ => by simp [mapDelete]
  | (k', e') :: rest, k => by
      by_cases hc : k' = k
      · simp [mapDelete, hc]
      · simp only [mapDelete, if_neg hc, List.length_cons]
        have := mapDelete_length_le rest k
        omega

lemma mapDelete_length_mem {V : Type} : ∀ (m : List (String × CEntry V)) (k : String),
    k ∈ m.map Prod.fst → (mapDelete m k).length + 1 = m.length
  | [], k, h => by simp at h
  | (k', e') :: rest, k, h => by
      by_cases hc : k' = k
      · simp [mapDelete, hc]
      · have hk : k ∈ rest.map Prod.fst := by
          simp only [List.map_cons, List.mem_cons] at h
          rcases h with h | h
          · exact absurd h.symm hc
          · exact h
        simp only [mapDelete, if_neg hc, List.length_cons]
        rw [← mapDelete_length_mem rest k hk]

lemma mapDelete_keys_not_mem {V : Type} : ∀ (m : List (String × CEntry V)) (k : String),
    (m.map Prod.fst).Nodup → k ∉ (mapDelete m k).map Prod.fst
  | [], k, _ => by simp [mapDelete]
  | (k', e') :: rest, k, hnd => by
      simp only [List.map_cons, List.nodup_cons] at hnd
      by_cases hc : k' = k
      · simp only [mapDelete, if_pos hc]
        rw [← hc]
        exact hnd.1
      · simp only [mapDelete, if_neg hc, List.map_cons, List.mem_cons]
        push_neg
        exact ⟨fun h => hc h.symm, mapDelete_keys_not_mem rest k hnd.2⟩

lemma mem_mapDelete_of_ne {V : Type} : ∀ (m : List (String × CEntry V)) (x k : String),
    x ∈ m.map Prod.fst → x ≠ k → x ∈ (mapDelete m k).map Prod.fst
  | [], x, k, h, _ => by simp at h
  | (k', e') :: rest, x, k, h, hne => by
      simp only [List.map_cons, List.mem_cons] at h
      by_cases hc : k' = k
      · simp only [mapDelete, if_pos hc]
        rcases h with h | h
        · exact absurd (h.trans hc) hne
        · exact h
      · simp only [mapDelete, if_neg hc, List.map_cons, List.mem_cons]
        rcases h with h | h
        · exact Or.inl h
        · exact Or.inr (mem_mapDelete_of_ne rest x k h hne)

lemma oldestAux_some {V : Type} : ∀ (m : List (String × CEntry V)) (p : String × Nat),
    ∃ q, oldestAux m (some p) = some q
  | [], p => ⟨p, rfl⟩
  | (k', e') :: rest, p => by
      obtain ⟨k0, t0⟩ := p
      rw [oldestAux]
      split
      · exact oldestAux_some rest _
      · exact oldestAux_some rest _

lemma oldestAux_mem {V : Type} : ∀ (m : List (String × CEntry V)) (acc : Option (String × Nat))
    (k : String) (t : Nat), oldestAux m acc = some (k, t) →
    k ∈ m.map Prod.fst ∨ acc = some (k, t)
  | [], acc, k, t, h => Or.inr (by simpa [oldestAux] using h)
  | (k', e') :: rest, acc, k, t, h => by
      match acc with
      | none =>
          rw [oldestAux] at h
          rcases oldestAux_mem rest (some (k', e'.timestamp)) k t h with h' | h'
          · exact Or.inl (by simp only [List.map_cons, List.mem_cons]; exact Or.inr h')
          · have : k' = k := (Prod.mk.injEq _ _ _ _ ▸ Option.some.inj h').1
            exact Or.inl (by simp only [List.map_cons, List.mem_cons]; exact Or.inl this.symm)
      | some (k0, t0) =>
          rw [oldestAux] at h
          split at h
          · rcases oldestAux_mem rest (some (k', e'.timestamp)) k t h with h' | h'
            · exact Or.inl (by simp only [List.map_cons, List.mem_cons]; exact Or.inr h')
            · have : k' = k := (Prod.mk.injEq _ _ _ _ ▸ Option.some.inj h').1
              exact Or.inl (by simp only [List.map_cons, List.mem_cons]; exact Or.inl this.symm)
          · rcases oldestAux_mem rest (some (k0, t0)) k t h with h' | h'
            · exact Or.inl (by simp only [List.map_cons, List.mem_cons]; exact Or.inr h')
            · exact Or.inr h'

lemma oldestKey_mem {V : Type} (m : List (String × CEntry V)) (k : String)
    (h : oldestKey m = some k) : k ∈ m.map Prod.fst := by
  rw [oldestKey] at h
  rcases haux : oldestAux m none with _ | q
  · rw [haux] at h
    simp at h
  · rw [haux] at h
    obtain ⟨k1, t1⟩ := q
    have hk : k1 = k := by simpa using h
    rcases oldestAux_mem m none k1 t1 haux with h' | h'
    · rw [← hk]
      exact h'
    · simp at h'

lemma oldestKey_isSome {V : Type} : ∀ (m : List (String × CEntry V)), m ≠ [] →
    ∃ k, oldestKey m = some k
  | [], h => absurd rfl h
  | (k', e') :: rest, _ => by
      obtain ⟨q, hq⟩ := oldestAux_some rest (k', e'.timestamp)
      refine ⟨q.1, ?_⟩
      rw [oldestKey, oldestAux, hq]
      rfl

lemma evictOldest_length {V : Type} (m : List (String × CEntry V)) (hm : m ≠ []) :
    (evictOldest m).length + 1 = m.length := by
  obtain ⟨k, hk⟩ := oldestKey_isSome m hm
  have hmem : k ∈ m.map Prod.fst := oldestKey_mem m k hk
  rw [evictOldest, hk]
  exact mapDelete_length_mem m k hmem

/-- The cache field produced by `set`, with the eviction step explicit. -/
lemma cacheSet_cache_eq {V : Type} (s : CacheState V) (k : String) (v : V)
    (ttl : Option Nat) (now : Nat) :
    (cacheSet s k v ttl now).cache
      = mapSet (if s.maxSize ≤ s.cache.length then evictOldest s.cache else s.cache) k
          { value := v, timestamp := now,
            ttl := match ttl with | some t => some t | none => s.defaultTTL } := rfl

lemma cacheSet_size {V : Type} (s : CacheState V) (k : String) (v : V) (ttl : Option Nat)
    (now : Nat) (h1 : 1 ≤ s.maxSize) (h2 : s.cache.length ≤ s.maxSize) :
    (cacheSet s k v ttl now).cache.length ≤ s.maxSize := by
  rw [cacheSet_cache_eq]
  by_cases hc : s.maxSize ≤ s.cache.length
  · rw [if_pos hc]
    have hlen : s.cache.length = s.maxSize := le_antisymm h2 hc
    have hne : s.cache ≠ [] := by
      intro h
      rw [h] at hlen
      simp at hlen
      omega
    have hev := evictOldest_length s.cache hne
    have hms := mapSet_length_le (evictOldest s.cache) k
      { value := v, timestamp := now,
        ttl := match ttl with | some t => some t | none => s.defaultTTL }
    omega
  · rw [if_neg hc]
    have hms := mapSet_length_le s.cache k
      { value := v, timestamp := now,
        ttl := match ttl with | some t => some t | none => s.defaultTTL }
    omega

lemma cacheGet_cache_le {V : Type} (s : CacheState V) (k : String) (now : Nat) :
    (cacheGet s k now).1.cache.length ≤ s.cache.length ∧
    (cacheGet s k now).1.maxSize = s.maxSize := by
  rcases hfind : mapFind s.cache k with _ | e
  · simp [cacheGet, hfind]
  · rcases httl : e.ttl with _ | t
    · simp [cacheGet, hfind, httl]
    · by_cases hexp : now - e.timestamp > t
      · simp only [cacheGet, hfind, httl, if_pos hexp]
        exact ⟨mapDelete_length_le s.cache k, trivial⟩
      · simp [cacheGet, hfind, httl, hexp]

lemma applyOp_size {V : Type} (s : CacheState V) (op : COp V) (h1 : 1 ≤ s.maxSize)
    (h2 : s.cache.length ≤ s.maxSize) :
    (applyOp s op).cache.length ≤ s.maxSize ∧ (applyOp s op).maxSize = s.maxSize := by
  cases op with
  | set k v ttl now => exact ⟨cacheSet_size s k v ttl now h1 h2, rfl⟩
  | get k now =>
      have := cacheGet_cache_le s k now
      exact ⟨le_trans this.1 h2, this.2⟩
  | has k now =>
      have := cacheGet_cache_le s k now
      exact ⟨le_trans this.1 h2, this.2⟩
  | del k => exact ⟨le_trans (mapDelete_length_le s.cache k) h2, rfl⟩
  | clear => exact ⟨by simp [applyOp, cacheClear], rfl⟩
  | invalidate pattern =>
      cases pattern with
      | none => exact ⟨by simp [applyOp, cacheInvalidate, cacheClear], rfl⟩
      | some p =>
          refine ⟨?_, rfl⟩
          simp only [applyOp, cacheInvalidate]
          exact le_trans (List.length_filter_le _ _) h2
  | cleanup now =>
      refine ⟨?_, rfl⟩
      simp only [applyOp, cacheCleanup]
      exact le_trans (List.length_filter_le _ _) h2

lemma applyOps_size {V : Type} : ∀ (ops : List (COp V)) (s : CacheState V),
    1 ≤ s.maxSize → s.cache.length ≤ s.maxSize →
    (applyOps s ops).cache.length ≤ s.maxSize ∧ (applyOps s ops).maxSize = s.maxSize
  | [], _, _, h2 => ⟨h2, rfl⟩
  | op :: rest, s, h1, h2 => by
      have hstep := applyOp_size s op h1 h2
      have hrec := applyOps_size rest (applyOp s op) (hstep.2 ▸ h1) (hstep.2 ▸ hstep.1)
      exact ⟨hstep.2 ▸ hrec.1, (hrec.2.trans hstep.2)⟩

/-- C7 (amended): for every cache constructed with `maxSize ≥ 1` and every
operation sequence, the number of stored entries never exceeds `maxSize` —
in particular after any `set`.  (The restriction to `maxSize ≥ 1` is forced:
with `maxSize = 0` the single pre-insert eviction cannot keep the map at
size 0, see the counterexample.) -/
theorem c7_size_bounded_amended (V : Type) (maxSize : Nat) (defaultTTL : Option Nat)
    (ops : List (COp V)) (h : 1 ≤ maxSize) :
    (applyOps (initCache V (some maxSize) defaultTTL) ops).cache.length ≤ maxSize := by
  have hms : (initCache V (some maxSize) defaultTTL).maxSize = maxSize := rfl
  have := applyOps_size ops (initCache V (some maxSize) defaultTTL)
    (by rw [hms]; exact h) (by simp [initCache])
  rw [hms] at this
  exact this.1

/-- Witness for C7 (amended): maxSize 2, three inserts, size stays ≤ 2. -/
theorem c7_size_bounded_witness :
    (applyOps (initCache Nat (some 2) none)
      [COp.set "k1" 1 none 0, COp.set "k2" 2 none 1, COp.set "k3" 3 none 2]).cache.length
      ≤ 2 :=
  c7_size_bounded_amended Nat 2 none
    [COp.set "k1" 1 none 0, COp.set "k2" 2 none 1, COp.set "k3" 3 none 2] (by decide)

/-- C7, counterexample to the claim as stated (any `maxSize`): constructing
the cache with `maxSize = 0` and performing one `set` leaves 1 > 0 stored
entries, because `set` evicts only one (here: zero) entry before inserting. -/
theorem c7_maxsize_zero_counterexample :
    (applyOps (initCache Nat (some 0) none) [COp.set "k" 7 none 0]).cache.length = 1 ∧
    ¬ ((applyOps (initCache Nat (some 0) none) [COp.set "k" 7 none 0]).cache.length
        ≤ (initCache Nat (some 0) none).maxSize) := by
  decide

/-- C10: when the cache already holds at least `maxSize` entries, `set`
evicts the entry with the oldest insertion timestamp even when the written
key is already present: the oldest key `k0 ≠ k` disappears and the entry
count drops by one (an overwrite at capacity `maxSize` leaves the cache
below `maxSize`). -/
theorem c10_eviction_on_overwrite (V : Type) (s : CacheState V) (k : String) (v : V)
    (ttl : Option Nat) (now : Nat) (k0 : String)
    (hfull : s.maxSize ≤ s.cache.length)
    (hmem : k ∈ s.cache.map Prod.fst)
    (hold : oldestKey s.cache = some k0)
    (hne : k0 ≠ k)
    (hnodup : (s.cache.map Prod.fst).Nodup) :
    k0 ∉ (cacheSet s k v ttl now).cache.map Prod.fst ∧
    (cacheSet s k v ttl now).cache.length + 1 = s.cache.length := by
  rw [cacheSet_cache_eq, if_pos hfull]
  rw [evictOldest, hold]
  constructor
  · intro hk0
    rcases mapSet_keys_sub (mapDelete s.cache k0) k _ k0 hk0 with h' | h'
    · exact mapDelete_keys_not_mem s.cache k0 hnodup h'
    · exact hne h'
  · have h1 : k ∈ (mapDelete s.cache k0).map Prod.fst :=
      mem_mapDelete_of_ne s.cache k k0 hmem (fun h => hne h.symm)
    rw [mapSet_length_mem (mapDelete s.cache k0) k _ h1]
    exact mapDelete_length_mem s.cache k0 (oldestKey_mem s.cache k0 hold)

/-- Witness for C10: a cache at capacity 2 holding k1 (older) and k2;
overwriting k2 deletes the unrelated k1 and leaves size 1 < 2. -/
theorem c10_eviction_on_overwrite_witness :
    "k1" ∉ ((cacheSet
        (⟨[("k1", ⟨1, 0, none⟩), ("k2", ⟨2, 1, none⟩)], 2, none, 0, 0⟩ : CacheState Nat)
        "k2" 9 none 5).cache.map Prod.fst) ∧
    ((cacheSet
        (⟨[("k1", ⟨1, 0, none⟩), ("k2", ⟨2, 1, none⟩)], 2, none, 0, 0⟩ : CacheState Nat)
        "k2" 9 none 5).cache.length + 1 = 2) :=
  c10_eviction_on_overwrite Nat
    (⟨[("k1", ⟨1, 0, none⟩), ("k2", ⟨2, 1, none⟩)], 2, none, 0, 0⟩ : CacheState Nat)
    "k2" 9 none 5 "k1" (by decide) (by decide) (by decide) (by decide) (by decide)

/-- One `get` bumps exactly one of the two counters. -/
lemma cacheGet_counters {V : Type} (s : CacheState V) (k : String) (now : Nat) :
    (cacheGet s k now).1.hits + (cacheGet s k now).1.misses = s.hits + s.misses + 1 := by
  rcases hfind : mapFind s.cache k with _ | e
  · simp only [cacheGet, hfind]
    omega
  · rcases httl : e.ttl with _ | t
    · simp only [cacheGet, hfind, httl]
      omega
    · by_cases hexp : now - e.timestamp > t
      · simp only [cacheGet, hfind, httl, if_pos hexp]
        omega
      · simp only [cacheGet, hfind, httl, if_neg hexp]
        omega

/-- Each non-clearing operation adds one to `hits + misses` exactly when it
is a `get`/`has` request. -/
lemma applyOp_counters {V : Type} (s : CacheState V) (op : COp V)
    (h : isClearingOp op = false) :
    (applyOp s op).hits + (applyOp s op).misses
      = s.hits + s.misses + (if isReqOp op then 1 else 0) := by
  cases op with
  | set k v ttl now => simp [applyOp, cacheSet, isReqOp]
  | get k now =>
      simp only [applyOp, isReqOp, if_pos]
      exact cacheGet_counters s k now
  | has k now =>
      show (cacheGet s k now).1.hits + (cacheGet s k now).1.misses
        = s.hits + s.misses + (if isReqOp (COp.has (V := V) k now) then 1 else 0)
      simp only [isReqOp, if_pos]
      exact cacheGet_counters s k now
  | del k => simp [applyOp, cacheDelete, isReqOp]
  | clear => simp [isClearingOp] at h
  | invalidate pattern =>
      cases pattern with
      | none => simp [isClearingOp] at h
      | some p => simp [applyOp, cacheInvalidate, isReqOp]
  | cleanup now => simp [applyOp, cacheCleanup, isReqOp]

lemma reqCount_cons {V : Type} (op : COp V) (rest : List (COp V)) :
    reqCount (op :: rest) = (if isReqOp op then 1 else 0) + reqCount rest := by
  by_cases h : isReqOp op
  · simp only [reqCount, List.filter_cons, h, if_pos, List.length_cons]
    omega
  · simp [reqCount, List.filter_cons, h]

/-- Over a clearing-free run, `hits + misses` grows by exactly the number of
`get`/`has` calls. -/
lemma applyOps_counters {V : Type} : ∀ (ops : List (COp V)) (s : CacheState V),
    (∀ op ∈ ops, isClearingOp op = false) →
    (applyOps s ops).hits + (applyOps s ops).misses = s.hits + s.misses + reqCount ops
  | [], s, _ => by simp [applyOps, reqCount]
  | op :: rest, s, h => by
      have hop : isClearingOp op = false := h op (List.mem_cons_self op rest)
      have hrest : ∀ o ∈ rest, isClearingOp o = false :=
        fun o ho => h o (List.mem_cons_of_mem op ho)
      show (applyOps (applyOp s op) rest).hits + (applyOps (applyOp s op) rest).misses
        = s.hits + s.misses + reqCount (op :: rest)
      rw [applyOps_counters rest (applyOp s op) hrest, applyOp_counters s op hop,
        reqCount_cons]
      omega

/-- C4 (amended): after a `clear` followed by any clearing-free operation
sequence, `hits + misses` equals the number of `get`/`has` calls made, and
`getStats().hitRate` is the percentage `(hits / (hits + misses)) * 100` when
any request was made — not the bare ratio `hits / (hits + misses)` — and `0`
when no `get`/`has` request has been made since the clear. -/
theorem c4_hitrate_percentage_amended (V : Type) (bytes : V → Nat) (s : CacheState V)
    (ops : List (COp V)) (h : ∀ op ∈ ops, isClearingOp op = false) :
    (applyOps (cacheClear s) ops).hits + (applyOps (cacheClear s) ops).misses
      = reqCount ops ∧
    (getStats bytes (applyOps (cacheClear s) ops)).hitRate
      = (if 0 < reqCount ops then
          ((applyOps (cacheClear s) ops).hits : ℚ) / (reqCount ops : ℚ) * 100 else 0) := by
  have htot : (applyOps (cacheClear s) ops).hits + (applyOps (cacheClear s) ops).misses
      = reqCount ops := by
    rw [applyOps_counters ops (cacheClear s) h]
    simp [cacheClear]
  refine ⟨htot, ?_⟩
  show (if 0 < (applyOps (cacheClear s) ops).hits + (applyOps (cacheClear s) ops).misses
      then ((applyOps (cacheClear s) ops).hits : ℚ)
        / (((applyOps (cacheClear s) ops).hits + (applyOps (cacheClear s) ops).misses : Nat) : ℚ)
        * 100
      else 0)
    = (if 0 < reqCount ops then
        ((applyOps (cacheClear s) ops).hits : ℚ) / (reqCount ops : ℚ) * 100 else 0)
  rw [htot]

/-- Witness for C4 (amended): a fresh cache, one missing `get`: one request,
hit rate (0/1)*100. -/
theorem c4_hitrate_percentage_witness :
    (applyOps (cacheClear (initCache Nat none none)) [COp.get "k" 0]).hits
        + (applyOps (cacheClear (initCache Nat none none)) [COp.get "k" 0]).misses
      = reqCount [COp.get (V := Nat) "k" 0] ∧
    (getStats (fun _ => 0) (applyOps (cacheClear (initCache Nat none none)) [COp.get "k" 0])).hitRate
      = (if 0 < reqCount [COp.get (V := Nat) "k" 0] then
          ((applyOps (cacheClear (initCache Nat none none)) [COp.get "k" 0]).hits : ℚ)
            / (reqCount [COp.get (V := Nat) "k" 0] : ℚ) * 100 else 0) :=
  c4_hitrate_percentage_amended Nat (fun _ => 0) (initCache Nat none none)
    [COp.get "k" 0] (fun op hop => by
      rcases List.mem_singleton.mp hop with h
      rw [h]
      rfl)

/-- Operation sequence of the C4 counterexample: one stored key, one hit and
one miss. -/
def c4ops : List (COp Nat) :=
  [COp.set "k1" 5 none 0, COp.get "k1" 0, COp.get "k2" 0]

/-- C4, counterexample to the claim as stated: with one hit and one miss the
code reports `hitRate = 50` (a percentage), while `hits / (hits + misses)`
is `1 / 2`; the two differ. -/
theorem c4_hitrate_counterexample :
    (getStats (fun _ => 0) (applyOps (initCache Nat (some 10) none) c4ops)).hitRate = 50 ∧
    ((applyOps (initCache Nat (some 10) none) c4ops).hits : ℚ)
        / (((applyOps (initCache Nat (some 10) none) c4ops).hits : ℚ)
          + ((applyOps (initCache Nat (some 10) none) c4ops).misses : ℚ)) = 1 / 2 ∧
    (50 : ℚ) ≠ 1 / 2 := by
  refine ⟨?_, ?_, by norm_num⟩
  · show (if 0 < (1 + 1 : Nat) then ((1 : Nat) : ℚ) / (((1 + 1 : Nat) : Nat) : ℚ) * 100 else 0)
      = 50
    norm_num
  · show ((1 : Nat) : ℚ) / (((1 : Nat) : ℚ) + ((1 : Nat) : ℚ)) = 1 / 2
    norm_num

/-! ### Operation batcher
(packages/core/src/advanced/OperationBatcher.ts, `processBatch` lines
101-161).

The batch processor is modelled as a function from the batch's payloads to
either a thrown/rejected error or the returned results array.  The guards of
lines 102-128 (`isProcessing`, empty queue, `minBatchSize` deferral) return
without settling anything and only affect timing; the modelled function is
the settlement phase (lines 130-160) of a triggered batch: detach up to
`maxBatchSize` items, call the processor, and settle every detached item.
The per-index `undefined` guard (lines 145-147) protects against holes in
the JavaScript result array, which a `List R` cannot contain. -/

/-- Settlement of one batch item's promise. -/
inductive BatchSettle (R : Type) where
  | resolved (r : R)
  | rejected (e : String)
deriving DecidableEq, Repr

/-- Settlement phase of `processBatch` (lines 130-160): on a processor
throw/rejection every item of the batch is rejected with that error; on a
length mismatch every item is rejected with the mismatch error built at line
138; otherwise item `i` resolves with result `i`.  Returns the settlements
of the detached batch (in batch order) and the remaining queue. -/
def processBatch {T R : Type} (queue : List T) (maxBatchSize : Nat)
    (proc : List T → Except String (List R)) : List (BatchSettle R) × List T :=
  let batch := queue.take maxBatchSize
  match proc batch with
  | Except.error e => (batch.map (fun _ => BatchSettle.rejected e), queue.drop maxBatchSize)
  | Except.ok results =>
      if results.length ≠ batch.length then
        (batch.map (fun _ => BatchSettle.rejected
          ("Batch processor returned " ++ toString results.length ++
            " results but expected " ++ toString batch.length)), queue.drop maxBatchSize)
      else (results.map BatchSettle.resolved, queue.drop maxBatchSize)

/-- C5: if the batch processor throws (or rejects), or returns an array
whose length differs from the batch size, then every item of that batch is
rejected with the same error derived from the failure, and no item of that
batch is resolved. -/
theorem c5_batch_all_or_nothing (T R : Type) (queue : List T) (maxBatchSize : Nat)
    (proc : List T → Except String (List R)) :
    (∀ e, proc (queue.take maxBatchSize) = Except.error e →
      (processBatch queue maxBatchSize proc).1
        = (queue.take maxBatchSize).map (fun _ => BatchSettle.rejected e) ∧
      ∀ x ∈ (processBatch queue maxBatchSize proc).1, x = BatchSettle.rejected e) ∧
    (∀ results, proc (queue.take maxBatchSize) = Except.ok results →
      results.length ≠ (queue.take maxBatchSize).length →
      (processBatch queue maxBatchSize proc).1
        = (queue.take maxBatchSize).map (fun _ => BatchSettle.rejected
            ("Batch processor returned " ++ toString results.length ++
              " results but expected " ++ toString (queue.take maxBatchSize).length)) ∧
      ∀ x ∈ (processBatch queue maxBatchSize proc).1,
        x = BatchSettle.rejected
          ("Batch processor returned " ++ toString results.length ++
            " results but expected " ++ toString (queue.take maxBatchSize).length)) := by
  constructor
  · intro e he
    have heq : (processBatch queue maxBatchSize proc).1
        = (queue.take maxBatchSize).map (fun _ => BatchSettle.rejected e) := by
      simp [processBatch, he]
    refine ⟨heq, ?_⟩
    intro x hx
    rw [heq] at hx
    rcases List.mem_map.mp hx with ⟨a, _, ha⟩
    exact ha.symm
  · intro results hok hlen
    have heq : (processBatch queue maxBatchSize proc).1
        = (queue.take maxBatchSize).map (fun _ => BatchSettle.rejected
            ("Batch processor returned " ++ toString results.length ++
              " results but expected " ++ toString (queue.take maxBatchSize).length)) := by
      simp only [processBatch, hok]
      rw [if_pos hlen]
    refine ⟨heq, ?_⟩
    intro x hx
    rw [heq] at hx
    rcases List.mem_map.mp hx with ⟨a, _, ha⟩
    exact ha.symm

/-- Batch processor that always rejects, for the C5 witness. -/
def procBoom : List Nat → Except String (List Nat) := fun _ => Except.error "boom"

/-- Witness for C5: a three-item batch whose processor rejects with "boom"
settles as three rejections with "boom". -/
theorem c5_batch_all_or_nothing_witness :
    (processBatch [1, 2, 3] 50 procBoom).1
      = [BatchSettle.rejected "boom", BatchSettle.rejected "boom",
         BatchSettle.rejected "boom"] := by
  have h := (c5_batch_all_or_nothing Nat Nat [1, 2, 3] 50 procBoom).1 "boom" rfl
  rw [h.1]
  rfl

end FhevmSdk
